import Mathlib

/-!
# Verification of the ayo offline web client's LLM RPC layer

This file is a shallow embedding, in Lean 4, of the protocol and routing
layer of the ayo offline web client:

* `src/offline/js/protocol.js` — OSC-framed message protocol
  (`encodeMessage`, `ProtocolParser`, `LLMRPCClient`, `LLMRPCHost`);
* `src/offline/js/llm-router.js` — the `LLMRouter` backend selection,
  local model loading/unloading and remote provider fallback.

Strings from the JavaScript side are modelled as `List Char`.  JavaScript's
`String.prototype.indexOf` is modelled by `findSub` (first occurrence of a
pattern, `none` for `-1`) and `indexOfFrom` (search from an index).
`JSON.parse` of a frame body is not part of the repository, so the parser
embedding is parametrised by a `decode : List Char → Option Msg` function:
`none` models a `JSON.parse` failure (the `catch` branch), `some m` a
success.  Promise resolution and rejection are modelled as explicit
`Action` values emitted by the parser, and console writes as structured
frames, so that theorems can talk about which callbacks fire.

`ProtocolParser.parse` in the source interleaves, inside one `while` loop,
(a) the scanning of the buffer into output/messages and (b) the handling of
each parsed message against `pendingRequests`.  The pending-map handling
never influences the scanning, so the embedding factors `parse` into the
pure scanner `scan` followed by the fold `processMessages` over the parsed
messages, in the same order the source processes them.
-/

/-- `ESC` (`'\x1B'`), from `protocol.js`. -/
def escChar : Char := '\x1B'

/-- `BEL` (`'\x07'`), from `protocol.js`. -/
def belChar : Char := '\x07'

/-- `OSC_START = ESC ]AYO;`, the frame start marker of `protocol.js`. -/
def oscStart : List Char := [escChar, ']', 'A', 'Y', 'O', ';']

/-- `OSC_END = BEL`, the frame end marker of `protocol.js` (a 1-char string). -/
def oscEnd : List Char := [belChar]

/-- Model of JavaScript `String.prototype.indexOf(pat)`: index of the first
occurrence of `pat` in `s`, `none` when there is none (`-1` in JS). -/
def findSub (pat : List Char) : List Char → Option Nat
  | [] => if pat.isPrefixOf ([] : List Char) then some 0 else none
  | c :: rest =>
    if pat.isPrefixOf (c :: rest) then some 0 else (findSub pat rest).map (· + 1)

/-- Model of JavaScript `s.indexOf(pat, i0)`: first occurrence at index `≥ i0`. -/
def indexOfFrom (pat : List Char) (s : List Char) (i0 : Nat) : Option Nat :=
  (findSub pat (s.drop i0)).map (· + i0)

/-- The fields of a decoded protocol message that `protocol.js` inspects:
`message.type`, `message.id`, `message.error`, `message.chunk`.  `id` is
`none` when the JSON object has no `id` property. -/
structure Msg where
  type : String
  id : Option Nat
  error : Option String
  chunk : Option String
deriving DecidableEq, Repr

/-- Result of one `ProtocolParser.parse` scan: the flushed regular
`output`, the decoded `messages`, and the retained `buffer`. -/
structure ScanOut where
  output : List Char
  messages : List Msg
  buffer : List Char
deriving DecidableEq, Repr

theorem findSub_lt_length {pat : List Char} (hpat : pat ≠ []) :
    ∀ {s : List Char} {i : Nat}, findSub pat s = some i → i < s.length := by
  intro s
  induction s with
  | nil =>
    intro i h
    simp only [findSub] at h
    split at h
    · rename_i hp
      rw [List.isPrefixOf_iff_prefix, List.prefix_nil] at hp
      exact absurd hp hpat
    · exact absurd h (by simp)
  | cons c rest ih =>
    intro i h
    simp only [findSub] at h
    split at h
    · cases h; simp
    · rcases Option.map_eq_some'.mp h with ⟨j, hj, rfl⟩
      have := ih hj
      simpa using Nat.succ_lt_succ this

/-- The scanning loop of `ProtocolParser.parse` (`protocol.js` lines
74–119).  Each complete frame strictly shortens the buffer, so the loop
runs at most `buffer.length` iterations; the `fuel` argument counts the
remaining iterations and makes the recursion structural (the fuel-0 branch
is unreachable for `fuel ≥ buffer.length`, see `scanFuel_irrel`). -/
def scanFuel (decode : List Char → Option Msg) : Nat → List Char → ScanOut
  | 0, buffer => ⟨buffer, [], []⟩
  | fuel + 1, buffer =>
    match findSub oscStart buffer with
    | none =>
      -- no more messages, everything is regular output
      ⟨buffer, [], []⟩
    | some startIdx =>
      match indexOfFrom oscEnd buffer startIdx with
      | none =>
        -- incomplete message, keep in buffer
        ⟨buffer.take startIdx, [], buffer.drop startIdx⟩
      | some endIdx =>
        let jsonStr := (buffer.drop (startIdx + oscStart.length)).take
          (endIdx - (startIdx + oscStart.length))
        let rest := buffer.drop (endIdx + oscEnd.length)
        let r := scanFuel decode fuel rest
        match decode jsonStr with
        | some m => ⟨buffer.take startIdx ++ r.output, m :: r.messages, r.buffer⟩
        | none => ⟨buffer.take startIdx ++ r.output, r.messages, r.buffer⟩

/-- One full run of the `ProtocolParser.parse` scanning loop on `buffer`. -/
def scan (decode : List Char → Option Msg) (buffer : List Char) : ScanOut :=
  scanFuel decode buffer.length buffer

/-- The promise-settling `PAction`s that `ProtocolParser.parse` performs on
`pendingRequests` entries (calling the stored `resolve` or `reject`). -/
inductive PAction where
  | resolve (id : Nat) (m : Msg)
  | reject (id : Nat) (error : String)
deriving DecidableEq, Repr

/-- JavaScript `message.error || 'Unknown error'` (empty string is falsy). -/
def jsErrorOr (e : Option String) : String :=
  match e with
  | some s => if s = "" then "Unknown error" else s
  | none => "Unknown error"

/-- JavaScript truthiness of `message.id` (absent or `0` are falsy). -/
def idTruthy (i : Option Nat) : Bool :=
  match i with
  | some n => n != 0
  | none => false

/-- The pending-request handling block of `ProtocolParser.parse`
(`protocol.js` lines 102–112), on the key set of `pendingRequests`:
on `llm:error` the stored `reject` is called (the entry is NOT deleted);
on `llm:done` the stored `resolve` is called and the entry is deleted;
`llm:chunk` and all other types leave the map untouched. -/
def handleResponse (pending : List Nat) (m : Msg) : List Nat × List PAction :=
  if idTruthy m.id && pending.contains (m.id.getD 0) then
    let i := m.id.getD 0
    if m.type = "llm:error" then
      (pending, [PAction.reject i (jsErrorOr m.error)])
    else if m.type = "llm:done" then
      (pending.filter (fun x => x != i), [PAction.resolve i m])
    else
      (pending, [])
  else
    (pending, [])

/-- Fold of `handleResponse` over the messages of one parse call, in the
order the source processes them. -/
def processMessages (pending : List Nat) (msgs : List Msg) : List Nat × List PAction :=
  match msgs with
  | [] => (pending, [])
  | m :: rest =>
    let (p1, a1) := handleResponse pending m
    let (p2, a2) := processMessages p1 rest
    (p2, a1 ++ a2)

/-- The mutable state of one `ProtocolParser` instance: `buffer`,
the key set of `pendingRequests`, and `nextId`. -/
structure ParserState where
  buffer : List Char
  pending : List Nat
  nextId : Nat
deriving DecidableEq, Repr

/-- A fresh `ProtocolParser` (`constructor`): empty buffer, no pending
requests, `nextId = 1`. -/
def ParserState.init : ParserState := ⟨[], [], 1⟩

/-- `ProtocolParser.parse(data)`: append `data` to the buffer, scan it,
handle each message against the pending map.  Returns the
`{ output, messages }` result, the new parser state, and the promise
actions performed. -/
def ProtocolParser.parse (decode : List Char → Option Msg) (st : ParserState)
    (data : List Char) : (List Char × List Msg) × ParserState × List PAction :=
  let s := scan decode (st.buffer ++ data)
  let pa := processMessages st.pending s.messages
  ((s.output, s.messages), ⟨s.buffer, pa.1, st.nextId⟩, pa.2)

/-- `ProtocolParser.generateId()`: returns `nextId` and increments it. -/
def ProtocolParser.generateId (st : ParserState) : Nat × ParserState :=
  (st.nextId, { st with nextId := st.nextId + 1 })

/-- `ProtocolParser.registerRequest(id)` on the key set of
`pendingRequests` (`Map.set` keeps the key set free of duplicates). -/
def ProtocolParser.registerRequest (pending : List Nat) (id : Nat) : List Nat :=
  if pending.contains id then pending else pending ++ [id]

/-- `ProtocolParser.cancelRequest(id)`: `pendingRequests.delete(id)`. -/
def ProtocolParser.cancelRequest (pending : List Nat) (id : Nat) : List Nat :=
  pending.filter (fun x => x != id)

example : scan (fun _ => none) ("hello".toList) = ⟨"hello".toList, [], []⟩ := by decide

example :
    scan (fun s => if s = "b".toList then some ⟨"llm:done", some 1, none, none⟩ else none)
      ("x".toList ++ oscStart ++ "b".toList ++ oscEnd ++ "y".toList) =
    ⟨"xy".toList, [⟨"llm:done", some 1, none, none⟩], []⟩ := by decide

/-! ## Lemmas about `findSub` (JavaScript `indexOf`) -/

theorem prefix_of_append_of_length_le {p x y : List Char}
    (h : p <+: x ++ y) (hl : p.length ≤ x.length) : p <+: x := by
  have := List.prefix_iff_eq_take.mp h
  rw [List.take_append_of_le_length hl] at this
  exact this ▸ List.take_prefix _ _

theorem findSub_isPrefix {pat s : List Char} {i : Nat}
    (h : findSub pat s = some i) : pat <+: s.drop i := by
  induction s generalizing i with
  | nil =>
    simp only [findSub] at h
    split at h
    · rename_i hp
      cases h
      simpa using List.isPrefixOf_iff_prefix.mp hp
    · exact absurd h (by simp)
  | cons c rest ih =>
    simp only [findSub] at h
    split at h
    · rename_i hp
      cases h
      simpa using List.isPrefixOf_iff_prefix.mp hp
    · rcases Option.map_eq_some'.mp h with ⟨j, hj, rfl⟩
      simpa using ih hj

theorem findSub_none {pat s : List Char} (h : findSub pat s = none) :
    ∀ i, ¬ pat <+: s.drop i := by
  induction s with
  | nil =>
    intro i hp
    simp only [findSub] at h
    split at h
    · exact absurd h (by simp)
    · rename_i hnp
      rw [List.drop_nil] at hp
      exact hnp (List.isPrefixOf_iff_prefix.mpr (by simpa using hp))
  | cons c rest ih =>
    intro i hp
    simp only [findSub] at h
    split at h
    · exact absurd h (by simp)
    · rename_i hnp
      rw [Option.map_eq_none'] at h
      cases i with
      | zero => exact hnp (List.isPrefixOf_iff_prefix.mpr (by simpa using hp))
      | succ j => exact ih h j (by simpa using hp)

theorem findSub_nil_pat (s : List Char) : findSub [] s = some 0 := by
  cases s with
  | nil => simp [findSub]
  | cons c rest => simp [findSub, List.isPrefixOf]

theorem findSub_append_left {pat A : List Char} {j : Nat} (C : List Char)
    (h : findSub pat A = some j) : findSub pat (A ++ C) = some j := by
  induction A generalizing j with
  | nil =>
    simp only [findSub] at h
    split at h
    · rename_i hp
      cases h
      have : pat = [] := by simpa using List.isPrefixOf_iff_prefix.mp hp
      subst this
      simpa using findSub_nil_pat C
    · exact absurd h (by simp)
  | cons a rest ih =>
    simp only [findSub] at h
    split at h
    · rename_i hp
      cases h
      have hp' : pat <+: (a :: rest) ++ C :=
        (List.isPrefixOf_iff_prefix.mp hp).trans (List.prefix_append _ _)
      have hp2 : pat.isPrefixOf (a :: (rest ++ C)) = true :=
        List.isPrefixOf_iff_prefix.mpr (by simpa using hp')
      simp [List.cons_append, findSub, hp2]
    · rename_i hnp
      rcases Option.map_eq_some'.mp h with ⟨j', hj', rfl⟩
      have hocc : pat <+: rest.drop j' := findSub_isPrefix hj'
      have hlen : pat.length ≤ rest.length :=
        le_trans hocc.length_le (by simp)
      have hnp' : ¬ pat.isPrefixOf ((a :: rest) ++ C) = true := by
        intro hp2
        exact hnp (List.isPrefixOf_iff_prefix.mpr
          (prefix_of_append_of_length_le (List.isPrefixOf_iff_prefix.mp hp2)
            (by simp; omega)))
      simp only [List.cons_append, findSub]
      rw [if_neg (by simpa using hnp')]
      simp only [List.append_eq]
      rw [ih hj']
      simp

theorem findSub_append_right {pat : List Char} (A C : List Char)
    (h : ∀ i, pat <+: (A ++ C).drop i → A.length ≤ i) :
    findSub pat (A ++ C) = (findSub pat C).map (· + A.length) := by
  induction A with
  | nil =>
    cases hc : findSub pat C <;> simp [hc]
  | cons a rest ih =>
    have h0 : ¬ pat.isPrefixOf (a :: rest ++ C) = true := by
      intro hp
      have := h 0 (by simpa using List.isPrefixOf_iff_prefix.mp hp)
      simp at this
    have ih' := ih (fun i hp => by
      have := h (i + 1) (by simpa using hp)
      simpa using this)
    simp only [List.cons_append, findSub]
    rw [if_neg (by simpa using h0)]
    simp only [List.append_eq]
    rw [ih']
    cases hc : findSub pat C <;> simp [hc]
    omega

/-! ## Unfolding equations for `scan` -/

theorem endIdx_lt_length {b : List Char} {s e : Nat}
    (h2 : indexOfFrom oscEnd b s = some e) : e < b.length ∧ s ≤ e := by
  simp only [indexOfFrom] at h2
  rcases Option.map_eq_some'.mp h2 with ⟨e', he', rfl⟩
  have hlt : e' < (b.drop s).length := findSub_lt_length (by simp [oscEnd]) he'
  simp only [List.length_drop] at hlt
  omega

theorem scanFuel_irrel (d : List Char → Option Msg) :
    ∀ (f1 f2 : Nat) (b : List Char), b.length ≤ f1 → b.length ≤ f2 →
      scanFuel d f1 b = scanFuel d f2 b := by
  intro f1
  induction f1 with
  | zero =>
    intro f2 b h1 _
    have hb : b = [] := List.length_eq_zero.mp (Nat.le_zero.mp h1)
    subst hb
    cases f2 with
    | zero => rfl
    | succ g => simp [scanFuel, findSub, oscStart, List.isPrefixOf]
  | succ f ih =>
    intro f2 b h1 h2
    cases f2 with
    | zero =>
      have hb : b = [] := List.length_eq_zero.mp (Nat.le_zero.mp h2)
      subst hb
      simp [scanFuel, findSub, oscStart, List.isPrefixOf]
    | succ g =>
      simp only [scanFuel]
      cases hs : findSub oscStart b with
      | none => rfl
      | some s =>
        cases he : indexOfFrom oscEnd b s with
        | none => simp [he]
        | some e =>
          have hel := endIdx_lt_length he
          have hrest : (b.drop (e + oscEnd.length)).length ≤ f := by
            simp only [List.length_drop, oscEnd, List.length_cons, List.length_nil]
            omega
          have hrest2 : (b.drop (e + oscEnd.length)).length ≤ g := by
            simp only [List.length_drop, oscEnd, List.length_cons, List.length_nil]
            omega
          simp only [he]
          rw [ih g _ hrest hrest2]

theorem scan_flush (d : List Char → Option Msg) (b : List Char)
    (h : findSub oscStart b = none) : scan d b = ⟨b, [], []⟩ := by
  cases b with
  | nil => rfl
  | cons c cs => simp [scan, scanFuel, h]

theorem scan_incomplete (d : List Char → Option Msg) (b : List Char) (s : Nat)
    (h : findSub oscStart b = some s) (h2 : indexOfFrom oscEnd b s = none) :
    scan d b = ⟨b.take s, [], b.drop s⟩ := by
  cases b with
  | nil => simp [findSub, oscStart, List.isPrefixOf] at h
  | cons c cs => simp [scan, scanFuel, h, h2]

theorem scan_frame (d : List Char → Option Msg) (b : List Char) (s e : Nat)
    (h : findSub oscStart b = some s) (h2 : indexOfFrom oscEnd b s = some e) :
    scan d b =
      (match d ((b.drop (s + oscStart.length)).take (e - (s + oscStart.length))) with
      | some m =>
        ⟨b.take s ++ (scan d (b.drop (e + oscEnd.length))).output,
          m :: (scan d (b.drop (e + oscEnd.length))).messages,
          (scan d (b.drop (e + oscEnd.length))).buffer⟩
      | none =>
        ⟨b.take s ++ (scan d (b.drop (e + oscEnd.length))).output,
          (scan d (b.drop (e + oscEnd.length))).messages,
          (scan d (b.drop (e + oscEnd.length))).buffer⟩) := by
  cases b with
  | nil => simp [findSub, oscStart, List.isPrefixOf] at h
  | cons c cs =>
    have hel := endIdx_lt_length h2
    have hlen : ((c :: cs).drop (e + oscEnd.length)).length ≤ cs.length := by
      simp only [List.length_drop, oscEnd, List.length_cons, List.length_nil]
      simp at hel
      omega
    simp only [scan, List.length_cons, scanFuel, h, h2]
    rw [scanFuel_irrel d cs.length ((c :: cs).drop (e + oscEnd.length)).length _ hlen le_rfl]

/-! ## Chunk-boundary safety and the parse composition lemma -/

/-- A chunk boundary placed right after `A` in the stream `A ++ C` is safe
when no occurrence of the frame start marker `OSC_START` straddles it:
every occurrence beginning at `i < A.length` lies entirely inside `A`. -/
def spanFree (A C : List Char) : Bool :=
  (List.range A.length).all fun i =>
    !(oscStart.isPrefixOf ((A ++ C).drop i)) || decide (i + oscStart.length ≤ A.length)

theorem spanFree_iff {A C : List Char} : spanFree A C = true ↔
    ∀ i, oscStart <+: (A ++ C).drop i →
      i + oscStart.length ≤ A.length ∨ A.length ≤ i := by
  unfold spanFree
  rw [List.all_eq_true]
  constructor
  · intro h i hp
    by_cases hi : i < A.length
    · have h2 := h i (List.mem_range.mpr hi)
      rw [Bool.or_eq_true] at h2
      rcases h2 with h2 | h2
      · rw [List.isPrefixOf_iff_prefix.mpr hp] at h2
        simp at h2
      · exact Or.inl (of_decide_eq_true h2)
    · exact Or.inr (by omega)
  · intro h i hi
    rw [List.mem_range] at hi
    rw [Bool.or_eq_true]
    by_cases hp : oscStart <+: (A ++ C).drop i
    · rcases h i hp with h1 | h1
      · exact Or.inr (decide_eq_true h1)
      · omega
    · refine Or.inl ?_
      rw [Bool.not_eq_true']
      exact Bool.eq_false_iff.mpr fun hc => hp (List.isPrefixOf_iff_prefix.mp hc)

theorem occ_in_left {p A C : List Char} {i : Nat}
    (hp : p <+: (A ++ C).drop i) (hl : i + p.length ≤ A.length) : p <+: A.drop i := by
  have hi : i ≤ A.length := by omega
  rw [List.drop_append_of_le_length hi] at hp
  exact prefix_of_append_of_length_le hp (by simp; omega)

theorem findSub_ge {A C : List Char} (hA : findSub oscStart A = none)
    (hsf : spanFree A C = true) :
    ∀ i, oscStart <+: (A ++ C).drop i → A.length ≤ i := by
  intro i hp
  rcases spanFree_iff.mp hsf i hp with h1 | h2
  · exact absurd (occ_in_left hp h1) (findSub_none hA i)
  · exact h2

theorem findSub_at_zero {p s : List Char} (h : p <+: s) : findSub p s = some 0 := by
  cases s with
  | nil =>
    have hp : p = [] := List.prefix_nil.mp h
    subst hp
    simp [findSub, List.isPrefixOf]
  | cons c rest => simp [findSub, List.isPrefixOf_iff_prefix.mpr h]

theorem findSub_end_append (L C : List Char) (hL : findSub oscEnd L = none) :
    findSub oscEnd (L ++ C) = (findSub oscEnd C).map (· + L.length) := by
  refine findSub_append_right L C fun i hp => ?_
  by_contra hc
  push_neg at hc
  exact findSub_none hL i (occ_in_left hp (by simp [oscEnd]; omega))

theorem scan_append_flush (d : List Char → Option Msg) (A C : List Char)
    (hA : findSub oscStart A = none) (hsf : spanFree A C = true) :
    scan d (A ++ C) = ⟨A ++ (scan d C).output, (scan d C).messages, (scan d C).buffer⟩ := by
  have hge := findSub_ge hA hsf
  have hAC := findSub_append_right A C hge
  cases hC : findSub oscStart C with
  | none =>
    rw [hC] at hAC
    simp only [Option.map_none'] at hAC
    rw [scan_flush d _ hAC, scan_flush d _ hC]
  | some j =>
    rw [hC] at hAC
    simp only [Option.map_some'] at hAC
    have hdropL : (A ++ C).drop (j + A.length) = C.drop j := by
      rw [Nat.add_comm, List.drop_append]
    have hendL : indexOfFrom oscEnd (A ++ C) (j + A.length) =
        (findSub oscEnd (C.drop j)).map (· + (j + A.length)) := by
      rw [indexOfFrom, hdropL]
    have hendR : indexOfFrom oscEnd C j = (findSub oscEnd (C.drop j)).map (· + j) := rfl
    have htakeL : (A ++ C).take (j + A.length) = A ++ C.take j := by
      rw [Nat.add_comm, List.take_append]
    cases hE : findSub oscEnd (C.drop j) with
    | none =>
      have h1 : indexOfFrom oscEnd (A ++ C) (j + A.length) = none := by
        rw [hendL, hE]; rfl
      have h2 : indexOfFrom oscEnd C j = none := by rw [hendR, hE]; rfl
      rw [scan_incomplete d _ _ hAC h1, scan_incomplete d _ _ hC h2, htakeL, hdropL]
    | some e =>
      have h1 : indexOfFrom oscEnd (A ++ C) (j + A.length) = some (e + (j + A.length)) := by
        rw [hendL, hE]; rfl
      have h2 : indexOfFrom oscEnd C j = some (e + j) := by rw [hendR, hE]; rfl
      have hjson : ((A ++ C).drop ((j + A.length) + oscStart.length)).take
            ((e + (j + A.length)) - ((j + A.length) + oscStart.length)) =
          (C.drop (j + oscStart.length)).take ((e + j) - (j + oscStart.length)) := by
        have hd : (A ++ C).drop ((j + A.length) + oscStart.length) =
            C.drop (j + oscStart.length) := by
          have harith : (j + A.length) + oscStart.length = A.length + (j + oscStart.length) := by
            omega
          rw [harith, List.drop_append]
        rw [hd]
        congr 1
        omega
      have hrest : (A ++ C).drop ((e + (j + A.length)) + oscEnd.length) =
          C.drop ((e + j) + oscEnd.length) := by
        have harith : (e + (j + A.length)) + oscEnd.length =
            A.length + ((e + j) + oscEnd.length) := by omega
        rw [harith, List.drop_append]
      rw [scan_frame d _ _ _ hAC h1, scan_frame d _ _ _ hC h2, hjson, hrest, htakeL]
      cases hd : d ((C.drop (j + oscStart.length)).take ((e + j) - (j + oscStart.length))) with
      | some m => simp [List.append_assoc]
      | none => simp [List.append_assoc]

/-- Composition of the scanner over a safe chunk boundary: scanning
`A ++ C` in one go is the same as scanning `A`, then scanning the retained
buffer with `C` appended, provided no start-marker occurrence straddles the
boundary after `A`. -/
theorem scan_append (d : List Char → Option Msg) :
    ∀ (n : Nat) (A C : List Char), A.length ≤ n → spanFree A C = true →
      scan d (A ++ C) =
        ⟨(scan d A).output ++ (scan d ((scan d A).buffer ++ C)).output,
          (scan d A).messages ++ (scan d ((scan d A).buffer ++ C)).messages,
          (scan d ((scan d A).buffer ++ C)).buffer⟩ := by
  intro n
  induction n with
  | zero =>
    intro A C hn _
    have hA : A = [] := List.length_eq_zero.mp (Nat.le_zero.mp hn)
    subst hA
    have h0 : scan d [] = ⟨[], [], []⟩ := rfl
    simp [h0]
  | succ n ih =>
    intro A C hn hsf
    cases hA : findSub oscStart A with
    | none =>
      have h0 : scan d A = ⟨A, [], []⟩ := scan_flush d A hA
      rw [scan_append_flush d A C hA hsf, h0]
      simp
    | some s =>
      have hpre : oscStart <+: A.drop s := findSub_isPrefix hA
      have hslt : s < A.length := findSub_lt_length (by simp [oscStart]) hA
      have hsA : s + oscStart.length ≤ A.length := by
        have := hpre.length_le
        simp only [List.length_drop] at this
        omega
      have hACs : findSub oscStart (A ++ C) = some s := findSub_append_left C hA
      have hdrops : (A ++ C).drop s = A.drop s ++ C :=
        List.drop_append_of_le_length (by omega)
      have htakes : (A ++ C).take s = A.take s :=
        List.take_append_of_le_length (by omega)
      cases hEA : indexOfFrom oscEnd A s with
      | none =>
        have hscanA : scan d A = ⟨A.take s, [], A.drop s⟩ := scan_incomplete d A s hA hEA
        have hEndL : findSub oscEnd (A.drop s) = none := by
          rw [indexOfFrom] at hEA
          exact Option.map_eq_none'.mp hEA
        have hstartLC : findSub oscStart (A.drop s ++ C) = some 0 :=
          findSub_at_zero (hpre.trans (List.prefix_append _ _))
        have hendLC := findSub_end_append (A.drop s) C hEndL
        cases hEC : findSub oscEnd C with
        | none =>
          have h1 : indexOfFrom oscEnd (A ++ C) s = none := by
            rw [indexOfFrom, hdrops, hendLC, hEC]; rfl
          have h2 : indexOfFrom oscEnd (A.drop s ++ C) 0 = none := by
            rw [indexOfFrom, List.drop_zero, hendLC, hEC]; rfl
          rw [scan_incomplete d _ _ hACs h1, hscanA,
            scan_incomplete d _ _ hstartLC h2]
          simp [htakes, hdrops]
        | some e =>
          have h1 : indexOfFrom oscEnd (A ++ C) s =
              some ((e + (A.drop s).length) + s) := by
            rw [indexOfFrom, hdrops, hendLC, hEC]; rfl
          have h2 : indexOfFrom oscEnd (A.drop s ++ C) 0 =
              some ((e + (A.drop s).length) + 0) := by
            rw [indexOfFrom, List.drop_zero, hendLC, hEC]; rfl
          have hJ : ((A ++ C).drop (s + oscStart.length)).take
                ((e + (A.drop s).length + s) - (s + oscStart.length)) =
              ((A.drop s ++ C).drop (0 + oscStart.length)).take
                ((e + (A.drop s).length + 0) - (0 + oscStart.length)) := by
            have hd1 : (A ++ C).drop (s + oscStart.length) =
                (A.drop s ++ C).drop (0 + oscStart.length) := by
              rw [← List.drop_drop, hdrops, Nat.zero_add]
            rw [hd1]
            congr 1
            omega
          have hR : (A ++ C).drop ((e + (A.drop s).length + s) + oscEnd.length) =
              (A.drop s ++ C).drop ((e + (A.drop s).length + 0) + oscEnd.length) := by
            have harith : (e + (A.drop s).length + s) + oscEnd.length =
                s + ((e + (A.drop s).length + 0) + oscEnd.length) := by omega
            rw [harith, ← List.drop_drop, hdrops]
          rw [scan_frame d _ _ _ hACs h1, hJ, hR]
          simp only [hscanA]
          rw [scan_frame d _ _ _ hstartLC h2]
          cases hd : d (((A.drop s ++ C).drop (0 + oscStart.length)).take
              ((e + (A.drop s).length + 0) - (0 + oscStart.length))) with
          | some m => simp [hd, htakes]
          | none => simp [hd, htakes]
      | some e =>
        have hel := endIdx_lt_length hEA
        rw [indexOfFrom] at hEA
        obtain ⟨e', hE', he⟩ := Option.map_eq_some'.mp hEA
        subst he
        have h1 : indexOfFrom oscEnd (A ++ C) s = some (e' + s) := by
          rw [indexOfFrom, hdrops, findSub_append_left C hE']
          rfl
        have hkA : e' + s < A.length := hel.1
        have hJ : ((A ++ C).drop (s + oscStart.length)).take
              ((e' + s) - (s + oscStart.length)) =
            (A.drop (s + oscStart.length)).take ((e' + s) - (s + oscStart.length)) := by
          rw [List.drop_append_of_le_length (by omega)]
          rw [List.take_append_of_le_length (by simp; omega)]
        have hR : (A ++ C).drop ((e' + s) + oscEnd.length) =
            A.drop ((e' + s) + oscEnd.length) ++ C :=
          List.drop_append_of_le_length (by simp [oscEnd]; omega)
        have hsf' : spanFree (A.drop ((e' + s) + oscEnd.length)) C = true := by
          rw [spanFree_iff]
          intro i hp
          have hdd : (A.drop ((e' + s) + oscEnd.length) ++ C).drop i =
              (A ++ C).drop (((e' + s) + oscEnd.length) + i) := by
            rw [← hR, List.drop_drop]
          rw [hdd] at hp
          rcases spanFree_iff.mp hsf _ hp with h3 | h3
          · left
            simp only [List.length_drop]
            omega
          · right
            simp only [List.length_drop]
            omega
        have hIH := ih (A.drop ((e' + s) + oscEnd.length)) C
          (by simp only [List.length_drop, oscEnd, List.length_cons, List.length_nil]; omega)
          hsf'
        have hsAfr := scan_frame d A s (e' + s) hA (by rw [indexOfFrom, hE']; rfl)
        have hsACfr := scan_frame d (A ++ C) s (e' + s) hACs h1
        rw [hJ, hR, hIH] at hsACfr
        cases hd : d ((A.drop (s + oscStart.length)).take ((e' + s) - (s + oscStart.length))) with
        | some m =>
          simp only [hd] at hsAfr hsACfr
          rw [hsACfr, hsAfr, htakes]
          simp
        | none =>
          simp only [hd] at hsAfr hsACfr
          rw [hsACfr, hsAfr, htakes]
          simp

/-- Feed a list of chunks to the scanner, threading the retained buffer and
concatenating outputs and messages — the scanner part of calling
`ProtocolParser.parse` once per chunk. -/
def scanChunks (d : List Char → Option Msg) (buf : List Char) :
    List (List Char) → List Char × List Msg × List Char
  | [] => ([], [], buf)
  | c :: cs =>
    let r := scan d (buf ++ c)
    let r2 := scanChunks d r.buffer cs
    (r.output ++ r2.1, r.messages ++ r2.2.1, r2.2.2)

/-- A chunking of the stream `A ++ cs.flatten` (with `A` already consumed)
is admissible when every chunk boundary is `spanFree`: no occurrence of the
start marker `OSC_START` straddles a boundary. -/
def splitOkFrom (A : List Char) : List (List Char) → Bool
  | [] => true
  | c :: cs => spanFree A (c :: cs).flatten && splitOkFrom (A ++ c) cs

theorem spanFree_of_append {A c r : List Char}
    (h : spanFree A (c ++ r) = true) : spanFree A c = true := by
  rw [spanFree_iff] at h ⊢
  intro i hp
  by_cases hi : A.length ≤ i
  · exact Or.inr hi
  · push_neg at hi
    have hi2 : i ≤ (A ++ c).length := by simp; omega
    have hp2 : oscStart <+: (A ++ (c ++ r)).drop i := by
      rw [← List.append_assoc, List.drop_append_of_le_length hi2]
      exact hp.trans (List.prefix_append _ _)
    exact h i hp2

/-- Scanning chunks one at a time, starting from the buffer retained after
scanning `A`, agrees with scanning the whole of `A ++ cs.flatten` at once,
whenever all chunk boundaries are admissible. -/
theorem scanChunks_eq (d : List Char → Option Msg) :
    ∀ (cs : List (List Char)) (A : List Char), splitOkFrom A cs = true →
      scan d (A ++ cs.flatten) =
        ⟨(scan d A).output ++ (scanChunks d (scan d A).buffer cs).1,
          (scan d A).messages ++ (scanChunks d (scan d A).buffer cs).2.1,
          (scanChunks d (scan d A).buffer cs).2.2⟩ := by
  intro cs
  induction cs with
  | nil =>
    intro A _
    simp [scanChunks]
  | cons c cs ih =>
    intro A h
    rw [splitOkFrom, Bool.and_eq_true] at h
    obtain ⟨h1, h2⟩ := h
    rw [List.flatten_cons] at h1
    have hsfc : spanFree A c = true := spanFree_of_append h1
    have hap := scan_append d A.length A c le_rfl hsfc
    have hih := ih (A ++ c) h2
    rw [List.flatten_cons, ← List.append_assoc, hih, hap]
    simp only [scanChunks]
    simp [List.append_assoc]

/-- Feed chunks one call of `ProtocolParser.parse` at a time, accumulating
the `{output, messages}` results (the actions of each call follow from its
messages and are not re-accumulated here). -/
def feedAll (d : List Char → Option Msg) (st : ParserState) :
    List (List Char) → (List Char × List Msg) × ParserState
  | [] => (([], []), st)
  | c :: cs =>
    let r := ProtocolParser.parse d st c
    let r2 := feedAll d r.2.1 cs
    ((r.1.1 ++ r2.1.1, r.1.2 ++ r2.1.2), r2.2)

theorem processMessages_append (p : List Nat) (m1 m2 : List Msg) :
    processMessages p (m1 ++ m2) =
      ((processMessages (processMessages p m1).1 m2).1,
        (processMessages p m1).2 ++ (processMessages (processMessages p m1).1 m2).2) := by
  induction m1 generalizing p with
  | nil => simp [processMessages]
  | cons m rest ih =>
    simp only [List.cons_append, processMessages]
    simp only [List.append_eq]
    rw [ih]
    simp [List.append_assoc]

theorem feedAll_eq (d : List Char → Option Msg) :
    ∀ (cs : List (List Char)) (buf : List Char) (p : List Nat) (n : Nat),
      feedAll d ⟨buf, p, n⟩ cs =
        (((scanChunks d buf cs).1, (scanChunks d buf cs).2.1),
          ⟨(scanChunks d buf cs).2.2,
            (processMessages p (scanChunks d buf cs).2.1).1, n⟩) := by
  intro cs
  induction cs with
  | nil => intro buf p n; simp [feedAll, scanChunks, processMessages]
  | cons c cs ih =>
    intro buf p n
    simp only [feedAll, ProtocolParser.parse, scanChunks]
    rw [ih]
    simp only [processMessages_append]

/-- A concrete `decode` table used by concrete witnesses: each listed body
string decodes to a fixed message, all other bodies fail to decode. -/
def decodeTest (s : List Char) : Option Msg :=
  if s = "b1".toList then some ⟨"llm:chunk", some 1, none, some "Hel"⟩
  else if s = "b2".toList then some ⟨"llm:chunk", some 1, none, some "lo"⟩
  else if s = "b3".toList then some ⟨"llm:done", some 1, none, none⟩
  else if s = "b4".toList then some ⟨"llm:error", some 7, some "boom", none⟩
  else none

/-- C1, amended.  Feeding any chunking of a byte stream to one
`ProtocolParser.parse` yields the same concatenated `output`, the same
message sequence, and the same final parser state as feeding the unsplit
stream in a single call — provided no chunk boundary falls strictly inside
an occurrence of the frame start marker (`splitOkFrom [] cs`). -/
theorem parse_chunked_eq_unsplit (d : List Char → Option Msg)
    (cs : List (List Char)) (h : splitOkFrom [] cs = true) :
    feedAll d ParserState.init cs =
      ((ProtocolParser.parse d ParserState.init cs.flatten).1,
        (ProtocolParser.parse d ParserState.init cs.flatten).2.1) := by
  have hsc := scanChunks_eq d cs [] h
  have h0 : scan d [] = ⟨[], [], []⟩ := rfl
  rw [h0] at hsc
  simp only [List.nil_append] at hsc
  show feedAll d ⟨[], [], 1⟩ cs = _
  rw [feedAll_eq]
  simp [ProtocolParser.parse, ParserState.init, hsc]

/-- The two chunks of the C1 counterexample: the split point falls after
the first byte (`ESC`) of the frame start marker. -/
def c1BadChunks : List (List Char) := [[escChar], ']' :: "AYO;b3\x07".toList]

/-- C1 as stated is false: splitting the well-formed single-frame stream
`ESC ]AYO; b3 BEL` between its first and second byte makes
`ProtocolParser.parse` flush the lone `ESC` (and later the rest of the
frame) as regular output and decode no message, while the unsplit stream
yields empty output and one decoded message. -/
theorem parse_chunked_counterexample :
    (feedAll decodeTest ParserState.init c1BadChunks).1 ≠
      (ProtocolParser.parse decodeTest ParserState.init c1BadChunks.flatten).1 := by
  decide

/-- Witness for `parse_chunked_eq_unsplit`: a concrete admissible chunking
(the boundary falls inside the frame body, not inside the start marker). -/
def c1GoodChunks : List (List Char) :=
  ["ab".toList ++ oscStart ++ "b3".toList, "\x07cd".toList]

theorem parse_chunked_eq_unsplit_witness :
    splitOkFrom [] c1GoodChunks = true ∧
      feedAll decodeTest ParserState.init c1GoodChunks =
        ((ProtocolParser.parse decodeTest ParserState.init c1GoodChunks.flatten).1,
          (ProtocolParser.parse decodeTest ParserState.init c1GoodChunks.flatten).2.1) :=
  ⟨by decide, parse_chunked_eq_unsplit decodeTest c1GoodChunks (by decide)⟩

/-! ## Malformed frames (C9) -/

theorem no_marker_straddle {pre tail : List Char} {i : Nat}
    (hp : oscStart <+: (pre ++ (oscStart ++ tail)).drop i)
    (h1 : i < pre.length) (h2 : pre.length < i + oscStart.length) : False := by
  obtain ⟨t, ht⟩ := hp
  have hk : pre.length - i < oscStart.length := by omega
  have hchar : (pre ++ (oscStart ++ tail))[pre.length]? = some escChar := by
    rw [List.getElem?_append_right (by omega)]
    simp [oscStart]
  have hdropChar : ((pre ++ (oscStart ++ tail)).drop i)[pre.length - i]? =
      (pre ++ (oscStart ++ tail))[pre.length]? := by
    rw [List.getElem?_drop]
    congr 1
    omega
  rw [← ht] at hdropChar
  rw [List.getElem?_append_left (by omega)] at hdropChar
  rw [hchar] at hdropChar
  have hval : oscStart[pre.length - i]? = some escChar := hdropChar
  have hk6 : pre.length - i < 6 := by simpa [oscStart] using hk
  have hk1 : 1 ≤ pre.length - i := by omega
  interval_cases h : (pre.length - i) <;> simp_all [oscStart, escChar]

theorem findSub_marker_start {pre tail : List Char}
    (hpre : findSub oscStart pre = none) :
    findSub oscStart (pre ++ (oscStart ++ tail)) = some pre.length := by
  have hyp : ∀ i, oscStart <+: (pre ++ (oscStart ++ tail)).drop i → pre.length ≤ i := by
    intro i hp
    by_contra hlt
    push_neg at hlt
    by_cases h1 : i + oscStart.length ≤ pre.length
    · exact findSub_none hpre i (occ_in_left hp h1)
    · exact no_marker_straddle hp hlt (by omega)
  rw [findSub_append_right pre _ hyp, findSub_at_zero (List.prefix_append _ _)]
  simp

theorem findSub_end_append_none {A B : List Char} (hA : findSub oscEnd A = none)
    (hB : findSub oscEnd B = none) : findSub oscEnd (A ++ B) = none := by
  rw [findSub_end_append A B hA, hB]
  rfl

/-- C9 at the scanner level: a complete frame whose body fails to decode is
consumed whole (start marker through end marker), contributes no message
and no output characters, and scanning continues on the remaining stream. -/
theorem scan_malformed_frame (d : List Char → Option Msg) (pre body rest : List Char)
    (hpre : findSub oscStart pre = none) (hbody : findSub oscEnd body = none)
    (hdec : d body = none) :
    scan d (pre ++ oscStart ++ body ++ oscEnd ++ rest) =
      ⟨pre ++ (scan d rest).output, (scan d rest).messages, (scan d rest).buffer⟩ := by
  have hS : pre ++ oscStart ++ body ++ oscEnd ++ rest =
      pre ++ (oscStart ++ (body ++ (oscEnd ++ rest))) := by
    simp [List.append_assoc]
  have hstart : findSub oscStart (pre ++ (oscStart ++ (body ++ (oscEnd ++ rest)))) =
      some pre.length := findSub_marker_start hpre
  have hdropPre : (pre ++ (oscStart ++ (body ++ (oscEnd ++ rest)))).drop pre.length =
      oscStart ++ (body ++ (oscEnd ++ rest)) := List.drop_left _ _
  have hendTail : findSub oscEnd (oscStart ++ (body ++ (oscEnd ++ rest))) =
      some (oscStart.length + body.length) := by
    rw [← List.append_assoc]
    rw [findSub_end_append (oscStart ++ body) _
      (findSub_end_append_none (by decide) hbody)]
    rw [findSub_at_zero (List.prefix_append _ _)]
    simp
  have hend : indexOfFrom oscEnd (pre ++ (oscStart ++ (body ++ (oscEnd ++ rest))))
      pre.length = some ((oscStart.length + body.length) + pre.length) := by
    rw [indexOfFrom, hdropPre, hendTail]
    rfl
  rw [hS, scan_frame d _ _ _ hstart hend]
  have hJ : ((pre ++ (oscStart ++ (body ++ (oscEnd ++ rest)))).drop
        (pre.length + oscStart.length)).take
        ((oscStart.length + body.length + pre.length) - (pre.length + oscStart.length)) =
      body := by
    have hd1 : (pre ++ (oscStart ++ (body ++ (oscEnd ++ rest)))).drop
        (pre.length + oscStart.length) = body ++ (oscEnd ++ rest) := by
      have hgrp : pre ++ (oscStart ++ (body ++ (oscEnd ++ rest))) =
          (pre ++ oscStart) ++ (body ++ (oscEnd ++ rest)) := by
        simp [List.append_assoc]
      have hlen : pre.length + oscStart.length = (pre ++ oscStart).length := by simp
      rw [hgrp, hlen, List.drop_left]
    rw [hd1]
    have harith : (oscStart.length + body.length + pre.length) -
        (pre.length + oscStart.length) = body.length := by omega
    rw [harith, List.take_left]
  have hRest : (pre ++ (oscStart ++ (body ++ (oscEnd ++ rest)))).drop
      ((oscStart.length + body.length + pre.length) + oscEnd.length) = rest := by
    have hgrp : pre ++ (oscStart ++ (body ++ (oscEnd ++ rest))) =
        (pre ++ oscStart ++ body ++ oscEnd) ++ rest := by
      simp [List.append_assoc]
    have hlen : (oscStart.length + body.length + pre.length) + oscEnd.length =
        (pre ++ oscStart ++ body ++ oscEnd).length := by
      simp
      omega
    rw [hgrp, hlen, List.drop_left]
  rw [hJ, hRest, hdec]
  have hTake : (pre ++ (oscStart ++ (body ++ (oscEnd ++ rest)))).take pre.length = pre :=
    List.take_left _ _
  rw [hTake]

/-- C9.  `ProtocolParser.parse` on an input containing a complete frame
whose body fails to decode does not throw (it is a total function): the
malformed frame is consumed — the region from the start marker through the
end marker is removed from the buffer — it contributes no message and no
output characters, and parsing of the remaining stream continues. -/
theorem parse_malformed_frame (d : List Char → Option Msg)
    (pre body rest : List Char) (p : List Nat) (n : Nat)
    (hpre : findSub oscStart pre = none) (hbody : findSub oscEnd body = none)
    (hdec : d body = none) :
    ProtocolParser.parse d ⟨[], p, n⟩ (pre ++ oscStart ++ body ++ oscEnd ++ rest) =
      ((pre ++ (scan d rest).output, (scan d rest).messages),
        ⟨(scan d rest).buffer, (processMessages p (scan d rest).messages).1, n⟩,
        (processMessages p (scan d rest).messages).2) := by
  simp only [ProtocolParser.parse, List.nil_append]
  rw [scan_malformed_frame d pre body rest hpre hbody hdec]

theorem parse_malformed_frame_witness :
    findSub oscStart "ab".toList = none ∧ findSub oscEnd "xx".toList = none ∧
      decodeTest "xx".toList = none ∧
      ProtocolParser.parse decodeTest ⟨[], [3], 9⟩
          ("ab".toList ++ oscStart ++ "xx".toList ++ oscEnd ++ "cd".toList) =
        (("ab".toList ++ (scan decodeTest "cd".toList).output,
            (scan decodeTest "cd".toList).messages),
          ⟨(scan decodeTest "cd".toList).buffer,
            (processMessages [3] (scan decodeTest "cd".toList).messages).1, 9⟩,
          (processMessages [3] (scan decodeTest "cd".toList).messages).2) :=
  ⟨by decide, by decide, by decide,
    parse_malformed_frame decodeTest "ab".toList "xx".toList "cd".toList [3] 9
      (by decide) (by decide) (by decide)⟩

/-! ## Pending-request lifecycle (C6, C8) -/

theorem contains_filter_ne (l : List Nat) (x : Nat) :
    (l.filter (fun y => y != x)).contains x = false := by
  induction l with
  | nil => rfl
  | cons a l ih =>
    by_cases h : a = x
    · simpa [List.filter, h] using ih
    · have hne : (a != x) = true := by simpa using h
      simp only [List.filter, hne, List.contains_cons]
      simp only [Bool.or_eq_false_iff]
      refine ⟨by simpa using fun hc => h hc.symm, ih⟩

/-- C6 as stated is false: parsing an `llm:error` message for a registered
pending id calls the stored `reject`, but the entry is still present in
`pendingRequests` afterwards (only `llm:done` deletes the entry,
`protocol.js` lines 105–110). -/
theorem pending_error_keeps_entry_counterexample :
    (handleResponse [7] ⟨"llm:error", some 7, some "boom", none⟩).2 =
        [PAction.reject 7 "boom"] ∧
      (handleResponse [7] ⟨"llm:error", some 7, some "boom", none⟩).1.contains 7 = true := by
  decide

/-- C6, amended.  A terminal `llm:done` message removes the pending entry
exactly once: afterwards the id is gone from the map and any duplicate
terminal message (`llm:done` or `llm:error`) for the same id is a harmless
no-op.  A terminal `llm:error` message, however, rejects the entry but
leaves it in the pending map (the code deletes only on `llm:done`). -/
theorem pending_terminal_amended (pending : List Nat) (id : Nat)
    (mDone mErr : Msg) (hid : id ≠ 0)
    (hdt : mDone.type = "llm:done") (hdi : mDone.id = some id)
    (het : mErr.type = "llm:error") (hei : mErr.id = some id)
    (hmem : pending.contains id = true) :
    (handleResponse pending mDone).1.contains id = false ∧
      (handleResponse pending mDone).2 = [PAction.resolve id mDone] ∧
      handleResponse (handleResponse pending mDone).1 mDone =
        ((handleResponse pending mDone).1, []) ∧
      handleResponse (handleResponse pending mDone).1 mErr =
        ((handleResponse pending mDone).1, []) ∧
      (handleResponse pending mErr).1 = pending ∧
      (handleResponse pending mErr).2 = [PAction.reject id (jsErrorOr mErr.error)] := by
  have hidt : idTruthy mDone.id = true := by simp [idTruthy, hdi, hid]
  have hiet : idTruthy mErr.id = true := by simp [idTruthy, hei, hid]
  have hmem' : id ∈ pending := by simpa using hmem
  have hdone1 : handleResponse pending mDone =
      (pending.filter (fun x => x != id), [PAction.resolve id mDone]) := by
    simp [handleResponse, idTruthy, hid, hdi, hmem', hdt]
  have hgone : (pending.filter (fun x => x != id)).contains id = false :=
    contains_filter_ne pending id
  have hgone' : id ∉ pending.filter (fun x => x != id) := by simpa using hgone
  refine ⟨by rw [hdone1]; exact hgone, by rw [hdone1], ?_, ?_, ?_, ?_⟩
  · rw [hdone1]
    simp [handleResponse, hidt, hdi, hgone']
  · rw [hdone1]
    simp [handleResponse, hiet, hei, hgone']
  · simp [handleResponse, idTruthy, hei, hmem', het, hid]
  · simp [handleResponse, idTruthy, hei, hmem', het, hid]

theorem pending_terminal_amended_witness :
    (7 : Nat) ≠ 0 ∧ ([7, 9] : List Nat).contains 7 = true ∧
      (handleResponse [7, 9] ⟨"llm:done", some 7, none, none⟩).1.contains 7 = false ∧
      (handleResponse [7, 9] ⟨"llm:done", some 7, none, none⟩).2 =
        [PAction.resolve 7 ⟨"llm:done", some 7, none, none⟩] ∧
      handleResponse (handleResponse [7, 9] ⟨"llm:done", some 7, none, none⟩).1
          ⟨"llm:done", some 7, none, none⟩ =
        ((handleResponse [7, 9] ⟨"llm:done", some 7, none, none⟩).1, []) :=
  have h := pending_terminal_amended [7, 9] 7 ⟨"llm:done", some 7, none, none⟩
    ⟨"llm:error", some 7, some "x", none⟩ (by decide) rfl rfl rfl rfl (by decide)
  ⟨by decide, by decide, h.1, h.2.1, h.2.2.1⟩

/-- C8.  After `ProtocolParser.cancelRequest(id)` the id is absent from the
pending set, and the pending-handling of any subsequently parsed message
carrying that id — in particular a terminal `llm:done` or `llm:error` — is
a no-op: it performs no resolve and no reject and leaves the map unchanged
(`parse` itself is a total function, so nothing is thrown). -/
theorem cancel_then_terminal_noop (pending : List Nat) (id : Nat) (m : Msg)
    (hmi : m.id = some id) :
    (ProtocolParser.cancelRequest pending id).contains id = false ∧
      handleResponse (ProtocolParser.cancelRequest pending id) m =
        (ProtocolParser.cancelRequest pending id, []) := by
  have hgone : (ProtocolParser.cancelRequest pending id).contains id = false :=
    contains_filter_ne pending id
  have hgone' : id ∉ ProtocolParser.cancelRequest pending id := by
    simpa [ProtocolParser.cancelRequest] using hgone
  refine ⟨hgone, ?_⟩
  simp [handleResponse, hmi, hgone', idTruthy]

theorem cancel_then_terminal_noop_witness :
    (⟨"llm:done", some 5, none, none⟩ : Msg).id = some 5 ∧
      (ProtocolParser.cancelRequest [5, 6] 5).contains 5 = false ∧
      handleResponse (ProtocolParser.cancelRequest [5, 6] 5)
          ⟨"llm:done", some 5, none, none⟩ =
        (ProtocolParser.cancelRequest [5, 6] 5, []) :=
  have h := cancel_then_terminal_noop [5, 6] 5 ⟨"llm:done", some 5, none, none⟩ rfl
  ⟨rfl, h.1, h.2⟩

/-! ## `encodeMessage` (C10) -/

/-- A JSON-compatible value, as far as the claims need. -/
inductive JsVal where
  | str (s : String)
  | num (n : Nat)
deriving DecidableEq, Repr

/-- JavaScript object-literal field assignment `k: v` on an object built
left to right: if `k` is already a key its value is updated in place (the
key keeps its original position), otherwise `(k, v)` is appended.  A JS
object has no duplicate keys, so updating the first occurrence is exact. -/
def objSet (obj : List (String × JsVal)) (k : String) (v : JsVal) :
    List (String × JsVal) :=
  match obj with
  | [] => [(k, v)]
  | p :: rest => if p.1 = k then (k, v) :: rest else p :: objSet rest k v

/-- JavaScript spread `{ ...base, ...payload }`: assign payload's fields
onto `base` left to right. -/
def objSpread (base payload : List (String × JsVal)) : List (String × JsVal) :=
  payload.foldl (fun o p => objSet o p.1 p.2) base

/-- The object literal `{ type, ...payload, ts: Date.now() }` that
`encodeMessage` (`protocol.js` lines 48–51) passes to `JSON.stringify`,
with `now` the value of `Date.now()` at encoding time. -/
def encodeMessage (type : String) (payload : List (String × JsVal)) (now : Nat) :
    List (String × JsVal) :=
  objSet (objSpread [("type", JsVal.str type)] payload) "ts" (JsVal.num now)

theorem objSet_lookup_self (obj : List (String × JsVal)) (k : String) (v : JsVal) :
    (objSet obj k v).lookup k = some v := by
  induction obj with
  | nil => simp [objSet, List.lookup]
  | cons p rest ih =>
    obtain ⟨a, b⟩ := p
    by_cases hp : a = k
    · simp [objSet, hp, List.lookup]
    · have h1 : (k == a) = false := by simpa using fun hc => hp hc.symm
      simp [objSet, hp, List.lookup, h1, ih]

theorem objSet_lookup_ne (obj : List (String × JsVal)) (k k' : String) (v : JsVal)
    (h : k' ≠ k) : (objSet obj k v).lookup k' = obj.lookup k' := by
  induction obj with
  | nil => simp [objSet, List.lookup, show (k' == k) = false from by simpa using h]
  | cons p rest ih =>
    obtain ⟨a, b⟩ := p
    by_cases hp : a = k
    · subst hp
      have h1 : (k' == a) = false := by simpa using h
      simp [objSet, List.lookup, h1]
    · by_cases hk' : k' = a
      · subst hk'
        simp [objSet, hp, List.lookup]
      · have h1 : (k' == a) = false := by simpa using hk'
        simp [objSet, hp, List.lookup, h1, ih]

theorem lookup_some_key_mem :
    ∀ (l : List (String × JsVal)) (k : String) (v : JsVal),
      l.lookup k = some v → k ∈ l.map Prod.fst := by
  intro l
  induction l with
  | nil => intro k v h; simp [List.lookup] at h
  | cons p rest ih =>
    intro k v h
    obtain ⟨a, b⟩ := p
    cases hbeq : (k == a) with
    | true =>
      have : k = a := by simpa using hbeq
      simp [this]
    | false =>
      simp only [List.lookup, hbeq] at h
      simpa using Or.inr (ih k v h)

theorem objSpread_lookup :
    ∀ (payload : List (String × JsVal)), (payload.map Prod.fst).Nodup →
      ∀ (base : List (String × JsVal)) (k : String),
        (objSpread base payload).lookup k =
          match payload.lookup k with
          | some v => some v
          | none => base.lookup k := by
  intro payload
  induction payload with
  | nil => intro _ base k; simp [objSpread, List.lookup]
  | cons p rest ih =>
    intro hnodup base k
    obtain ⟨a, b⟩ := p
    simp only [List.map_cons, List.nodup_cons] at hnodup
    have hrest := ih hnodup.2 (objSet base a b) k
    show (objSpread (objSet base a b) rest).lookup k = _
    rw [hrest]
    by_cases hk : k = a
    · subst hk
      have hnone : rest.lookup k = none := by
        cases h : rest.lookup k with
        | none => rfl
        | some v => exact absurd (lookup_some_key_mem rest k v h) hnodup.1
      rw [hnone]
      simp [List.lookup, objSet_lookup_self]
    · have h1 : (k == a) = false := by simpa using hk
      rw [objSet_lookup_ne base a k b hk]
      simp only [List.lookup, h1]

/-- C10.  In the JSON body built by `encodeMessage(type, payload)`, the
`ts` field always equals the encoding-time clock value, overriding any `ts`
property supplied in the payload; and if the payload itself defines a
`type` property, that payload value overrides the `type` argument, so the
frame's declared type is `payload.type` whenever the payload defines one. -/
theorem encodeMessage_ts_type (type : String) (payload : List (String × JsVal))
    (now : Nat) (hnodup : (payload.map Prod.fst).Nodup) :
    (encodeMessage type payload now).lookup "ts" = some (JsVal.num now) ∧
      (encodeMessage type payload now).lookup "type" =
        (match payload.lookup "type" with
        | some v => some v
        | none => some (JsVal.str type)) := by
  constructor
  · exact objSet_lookup_self _ "ts" (JsVal.num now)
  · unfold encodeMessage
    rw [objSet_lookup_ne _ "ts" "type" _ (by decide),
      objSpread_lookup payload hnodup [("type", JsVal.str type)] "type"]
    cases payload.lookup "type" <;> simp [List.lookup]

theorem encodeMessage_ts_type_witness :
    ((([("type", JsVal.str "llm:cancel"), ("ts", JsVal.num 5), ("id", JsVal.num 1)] :
        List (String × JsVal)).map Prod.fst).Nodup) ∧
      (encodeMessage "llm:request"
          [("type", JsVal.str "llm:cancel"), ("ts", JsVal.num 5), ("id", JsVal.num 1)]
          999).lookup "ts" = some (JsVal.num 999) ∧
      (encodeMessage "llm:request"
          [("type", JsVal.str "llm:cancel"), ("ts", JsVal.num 5), ("id", JsVal.num 1)]
          999).lookup "type" = some (JsVal.str "llm:cancel") :=
  have h := encodeMessage_ts_type "llm:request"
    [("type", JsVal.str "llm:cancel"), ("ts", JsVal.num 5), ("id", JsVal.num 1)] 999
    (by decide)
  ⟨by decide, h.1, h.2⟩

/-! ## LLMRouter (`llm-router.js`) -/

/-- The local backend kinds recorded in `currentBackend`
(`'webllm'` / `'wllama'`). -/
inductive Backend where
  | webllm
  | wllama
deriving DecidableEq, Repr

/-- A JavaScript `Error`-like value: its `name` and `message`. -/
structure JsError where
  name : String
  message : String
deriving DecidableEq, Repr

/-- `new DOMException('Aborted', 'AbortError')` thrown by
`generateWithWebLLM` when the abort signal is set (`llm-router.js` 438). -/
def abortError : JsError := ⟨"AbortError", "Aborted"⟩

/-- The aggregated error thrown when every backend attempt is exhausted
(`llm-router.js` line 420). -/
def noBackendError : JsError :=
  ⟨"Error",
    "No LLM backend available. Please download a local model or configure an API key in Settings."⟩

/-- The ids of `WEBLLM_MODELS` (`llm-router.js` lines 38–46). -/
def webllmModelIds : List String :=
  ["Llama-3.2-1B-Instruct-q4f16_1-MLC", "Llama-3.2-3B-Instruct-q4f16_1-MLC",
    "SmolLM2-1.7B-Instruct-q4f16_1-MLC", "SmolLM2-360M-Instruct-q4f32_1-MLC",
    "Qwen2.5-1.5B-Instruct-q4f16_1-MLC", "Phi-3.5-mini-instruct-q4f16_1-MLC",
    "TinyLlama-1.1B-Chat-v1.0-q4f32_1-MLC"]

/-- The ids of `WLLAMA_MODELS` (`llm-router.js` lines 52–85). -/
def wllamaModelIds : List String :=
  ["smollm2-360m-instruct-q8_0", "smollm2-1.7b-instruct-q4_k_m",
    "qwen2.5-0.5b-instruct-q8_0", "tinyllama-1.1b-chat-v1.0-q4_k_m"]

/-- The router's mutable state plus the availability snapshot it runs
against: engine handles are modelled by whether they are non-null;
`providers` is `storage.listApiKeyProviders()` in registration order;
`activeLocalModel` is the `storage.getConfig('activeLocalModel')` value
(a recorded empty string is falsy in JS and is modelled by membership
failure in both model-id lists, which it satisfies). -/
structure RouterState where
  webllmEngine : Bool
  wllamaInstance : Bool
  currentModel : Option String
  currentBackend : Option Backend
  webgpuAvailable : Bool
  wllamaAvailable : Bool
  providers : List String
  activeLocalModel : Option String
deriving DecidableEq, Repr

/-- `{ content }`, the completion result shape of every backend call. -/
structure GenResult where
  content : String
deriving DecidableEq, Repr

deriving instance DecidableEq for Except

/-- Events observable during one `generate` call: `onChunk` invocations
(content delta plus the `done` flag of the chunk object), and which cloud
provider was attempted by `generateWithCloud`. -/
inductive Evt where
  | chunk (content : String) (done : Bool)
  | cloudAttempt (provider : String)
deriving DecidableEq, Repr

/-- The environment one `generate` call runs against: outcomes of
`CreateMLCEngine` / `loadModelFromUrl`, the WebLLM engine's stream of
chunk deltas (`none` models a chunk with no `delta.content`), the Wllama
call's outcome and chunk events, and each remote provider's outcome.  A
remote `fetch` rejected because its abort signal fired shows up as
`.error abortError`. -/
structure Env where
  webllmLoad : String → Except JsError Unit
  wllamaLoad : String → Except JsError Unit
  webllmStream : List (Option String)
  wllamaResult : Except JsError GenResult
  wllamaEvts : List Evt
  cloudGen : String → Except JsError GenResult

/-- `LLMRouter.loadWebLLMModel` (lines 242–269): throws without WebGPU;
`CreateMLCEngine` may throw (no state change then); on success the engine
is stored and `currentModel`/`currentBackend` are set.  The returned pair
is the state after the call plus the thrown error, if any.  Nothing is
unloaded first. -/
def LLMRouter.loadWebLLMModel (st : RouterState) (env : Env) (modelId : String) :
    RouterState × Option JsError :=
  if !st.webgpuAvailable then (st, some ⟨"Error", "WebGPU not available"⟩)
  else
    match env.webllmLoad modelId with
    | .error e => (st, some e)
    | .ok _ =>
      ({ st with
          webllmEngine := true
          currentModel := some modelId
          currentBackend := some Backend.webllm }, none)

/-- `LLMRouter.loadWllamaModel` (lines 276–327): throws without
WebAssembly or for an unknown model id; the `Wllama` instance is assigned
before `loadModelFromUrl`, so it stays resident even when the download
throws; on success `currentModel`/`currentBackend` are set.  Nothing is
unloaded first. -/
def LLMRouter.loadWllamaModel (st : RouterState) (env : Env) (modelId : String) :
    RouterState × Option JsError :=
  if !st.wllamaAvailable then (st, some ⟨"Error", "WebAssembly not available"⟩)
  else if !(wllamaModelIds.contains modelId) then
    (st, some ⟨"Error", "Unknown model: " ++ modelId⟩)
  else
    let st1 := { st with wllamaInstance := true }
    match env.wllamaLoad modelId with
    | .error e => (st1, some e)
    | .ok _ =>
      ({ st1 with
          currentModel := some modelId
          currentBackend := some Backend.wllama }, none)

/-- `LLMRouter.unloadWebLLMModel` (lines 332–340). -/
def LLMRouter.unloadWebLLMModel (st : RouterState) : RouterState :=
  let st1 := { st with webllmEngine := false }
  if st1.currentBackend == some Backend.webllm then
    { st1 with currentModel := none, currentBackend := none }
  else st1

/-- `LLMRouter.unloadWllamaModel` (lines 345–358; `exit()` errors are
ignored). -/
def LLMRouter.unloadWllamaModel (st : RouterState) : RouterState :=
  let st1 := { st with wllamaInstance := false }
  if st1.currentBackend == some Backend.wllama then
    { st1 with currentModel := none, currentBackend := none }
  else st1

/-- `LLMRouter.unloadModel` (lines 363–366): unload both kinds. -/
def LLMRouter.unloadModel (st : RouterState) : RouterState :=
  LLMRouter.unloadWllamaModel (LLMRouter.unloadWebLLMModel st)

/-- What `generate` decides to do with a request. -/
inductive Choice where
  | useWebllm
  | useWllama
  | loadWebllm (modelId : String)
  | loadWllama (modelId : String)
  | remote (providers : List String)
deriving DecidableEq, Repr

/-- The backend-selection conditionals of `LLMRouter.generate`
(lines 374–421), factored as a pure function of the state snapshot: the
loaded-engine checks, then the `activeLocalModel` kind/capability checks,
else the provider loop on the configured providers in order.  Selection is
deterministic: it is a function of the snapshot alone. -/
def LLMRouter.selectBackend (st : RouterState) : Choice :=
  if st.webllmEngine && st.currentBackend == some Backend.webllm then .useWebllm
  else if st.wllamaInstance && st.currentBackend == some Backend.wllama then .useWllama
  else
    match st.activeLocalModel with
    | some m =>
      if webllmModelIds.contains m && st.webgpuAvailable then .loadWebllm m
      else if wllamaModelIds.contains m && st.wllamaAvailable then .loadWllama m
      else .remote st.providers
    | none => .remote st.providers

/-- The streaming loop of `generateWithWebLLM` (lines 436–452): before
each chunk the abort signal is checked (`signal k` is its value at the
k-th check) and `AbortError` is thrown if set; a falsy delta (absent or
empty) is skipped; after the stream ends a final `{content:'', done:true}`
chunk event is emitted and the accumulated content returned. -/
def webllmLoop (signal : Nat → Bool) :
    Nat → String → List (Option String) → Except JsError GenResult × List Evt
  | _, acc, [] => (.ok ⟨acc⟩, [.chunk "" true])
  | k, acc, c :: rest =>
    if signal k then (.error abortError, [])
    else
      match c with
      | some delta =>
        if delta ≠ "" then
          let r := webllmLoop signal (k + 1) (acc ++ delta) rest
          (r.1, .chunk delta false :: r.2)
        else webllmLoop signal (k + 1) acc rest
      | none => webllmLoop signal (k + 1) acc rest

/-- `LLMRouter.generateWithWebLLM` (lines 426–455). -/
def LLMRouter.generateWithWebLLM (signal : Nat → Bool)
    (stream : List (Option String)) : Except JsError GenResult × List Evt :=
  webllmLoop signal 0 "" stream

/-- The provider fallback loop of `generate` (lines 410–421): each
configured provider is attempted in order; an exception thrown by
`generateWithCloud` — including an `AbortError` from an aborted fetch — is
caught, logged, and the loop continues with the next provider; when all
providers are exhausted the aggregated no-backend error is thrown. -/
def tryProviders (env : Env) : List String → Except JsError GenResult × List Evt
  | [] => (.error noBackendError, [])
  | p :: rest =>
    match env.cloudGen p with
    | .ok r => (.ok r, [.cloudAttempt p])
    | .error _ =>
      let r := tryProviders env rest
      (r.1, .cloudAttempt p :: r.2)

/-- `LLMRouter.generate` (lines 374–421): dispatch on the selection. The
local branches run the already-loaded engine; the load branches run
`loadWebLLMModel`/`loadWllamaModel` first — a load failure propagates out
of `generate` (the `await load…` calls are not wrapped in `try`) — and the
remote branch runs the provider loop.  Returns the state after the call,
the result or thrown error, and the observable events. -/
def LLMRouter.generate (st : RouterState) (env : Env) (signal : Nat → Bool) :
    RouterState × Except JsError GenResult × List Evt :=
  match LLMRouter.selectBackend st with
  | .useWebllm => (st, LLMRouter.generateWithWebLLM signal env.webllmStream)
  | .useWllama => (st, env.wllamaResult, env.wllamaEvts)
  | .loadWebllm m =>
    match LLMRouter.loadWebLLMModel st env m with
    | (st', none) => (st', LLMRouter.generateWithWebLLM signal env.webllmStream)
    | (st', some e) => (st', .error e, [])
  | .loadWllama m =>
    match LLMRouter.loadWllamaModel st env m with
    | (st', none) => (st', env.wllamaResult, env.wllamaEvts)
    | (st', some e) => (st', .error e, [])
  | .remote ps => (st, tryProviders env ps)

/-! ## LLMRPCHost / LLMRPCClient (`protocol.js`) -/

/-- A frame written by the host back into the console channel. -/
structure HostFrame where
  ftype : String
  id : Nat
  chunk : Option String
  done : Option Bool
  error : Option String
deriving DecidableEq, Repr

/-- Whether a frame is terminal (`llm:done` or `llm:error`). -/
def HostFrame.isTerminal (f : HostFrame) : Bool :=
  f.ftype == "llm:done" || f.ftype == "llm:error"

/-- `LLMRPCHost.handleLLMRequest` (`protocol.js` lines 268–304), given the
outcome of the router call for request `id`: each `onChunk` invocation was
written immediately as an `llm:chunk` frame (the host's callback always
writes `done:false`); then on normal completion exactly one `llm:done`
frame is written; on an error whose `name` is `'AbortError'` nothing is
written (cancelled, no response needed); on any other error one
`llm:error` frame carrying the message is written. -/
def LLMRPCHost.handleLLMRequest (id : Nat)
    (routerOut : Except JsError GenResult × List Evt) : List HostFrame :=
  (routerOut.2.filterMap fun e =>
    match e with
    | .chunk c _ => some ⟨"llm:chunk", id, some c, some false, none⟩
    | .cloudAttempt _ => none) ++
  (match routerOut.1 with
  | .ok _ => [⟨"llm:done", id, none, none, none⟩]
  | .error e =>
    if e.name = "AbortError" then []
    else [⟨"llm:error", id, none, none, some e.message⟩])

/-- The request frame written by `LLMRPCClient.generate`:
`encodeMessage(LLM_REQUEST, { id, method: 'generate', params })`. -/
structure ReqFrame (P : Type) where
  ftype : String
  id : Nat
  method : String
  params : P
deriving DecidableEq, Repr

/-- `LLMRPCClient.generate` (`protocol.js` lines 168–181): draw an id from
`generateId()`, write the encoded request frame, and register the id with
the parser.  The `onChunk` argument is accepted — its JSDoc says
"Callback for streaming chunks" — but the body never uses it, and no
other code path stores or invokes it. -/
def LLMRPCClient.generate {P A : Type} (st : ParserState) (params : P)
    (onChunk : A) : ParserState × ReqFrame P :=
  let id := st.nextId
  ({ st with
      pending := ProtocolParser.registerRequest st.pending id
      nextId := st.nextId + 1 },
    ⟨"llm:request", id, "generate", params⟩)

/-- `LLMRPCClient.processInput` (lines 213–215): feed console data to the
client's parser. -/
def LLMRPCClient.processInput (decode : List Char → Option Msg)
    (st : ParserState) (data : List Char) :
    (List Char × List Msg) × ParserState × List PAction :=
  ProtocolParser.parse decode st data

/-- One complete frame around `body`, as written by the host. -/
def frameOf (body : String) : List Char := oscStart ++ body.toList ++ oscEnd

/-! ## Backend selection (C7) -/

/-- A Ready (currently loaded) local backend, per the spec's priority:
the accelerated kind first, then the CPU kind. -/
def readyLocal (st : RouterState) : Option Choice :=
  if st.webllmEngine && st.currentBackend == some Backend.webllm then
    some Choice.useWebllm
  else if st.wllamaInstance && st.currentBackend == some Backend.wllama then
    some Choice.useWllama
  else none

/-- The configured active local model, per the spec: use the accelerated
kind when the recorded id is of that kind and the accelerated capability
is available, otherwise the CPU kind when the id is of that kind and the
CPU capability is available; otherwise no local choice. -/
def activeLocal (st : RouterState) : Option Choice :=
  match st.activeLocalModel with
  | none => none
  | some m =>
    if webllmModelIds.contains m && st.webgpuAvailable then
      some (Choice.loadWebllm m)
    else if wllamaModelIds.contains m && st.wllamaAvailable then
      some (Choice.loadWllama m)
    else none

/-- Modelled from the spec's words for C7: backend selection follows the
fixed priority order — a currently loaded (Ready) local model first; else
the configured active local model (accelerated kind when its capability is
available, else the CPU kind); else the remote providers in configured
registration order. -/
def specSelect (st : RouterState) : Choice :=
  match readyLocal st with
  | some c => c
  | none =>
    match activeLocal st with
    | some c => c
    | none => Choice.remote st.providers

/-- C7.  Backend selection by `generate` is deterministic — it is a pure
function `LLMRouter.selectBackend` of the availability snapshot, and
`LLMRouter.generate` is dispatch on its value — and it equals the spec's
fixed priority order `specSelect` on every snapshot. -/
theorem selectBackend_follows_priority (st : RouterState) :
    LLMRouter.selectBackend st = specSelect st := by
  unfold LLMRouter.selectBackend specSelect readyLocal activeLocal
  by_cases h1 : st.webllmEngine && st.currentBackend == some Backend.webllm
  · simp [h1]
  · by_cases h2 : st.wllamaInstance && st.currentBackend == some Backend.wllama
    · simp [h1, h2]
    · cases hm : st.activeLocalModel with
      | none => simp [h1, h2, hm]
      | some m =>
        by_cases h3 : m ∈ webllmModelIds ∧ st.webgpuAvailable = true
        · simp [h1, h2, hm, h3]
        · by_cases h4 : m ∈ wllamaModelIds ∧ st.wllamaAvailable = true
          · simp [h1, h2, hm, h3, h4]
          · simp [h1, h2, hm, h3, h4]

/-! ## Remote fallback exhaustion (C2) -/

theorem tryProviders_all_fail (env : Env) :
    ∀ ps : List String, (∀ p ∈ ps, ∃ e, env.cloudGen p = .error e) →
      tryProviders env ps = (.error noBackendError, ps.map Evt.cloudAttempt) := by
  intro ps
  induction ps with
  | nil => intro _; rfl
  | cons p rest ih =>
    intro h
    obtain ⟨e, he⟩ := h p (by simp)
    have hr := ih fun q hq => h q (by simp [hq])
    simp [tryProviders, he, hr]

/-- C2, amended.  When no local path applies and every configured provider
fails (in particular: local capability unavailable and the sole provider
`openai` failing with HTTP 500), each provider's error is caught by the
fallback loop, every provider is attempted in order, and `generate` raises
the aggregated "No LLM backend available" error — the individual
provider's error is not surfaced to the caller. -/
theorem generate_remote_exhausted (st : RouterState) (env : Env)
    (signal : Nat → Bool)
    (hsel : LLMRouter.selectBackend st = Choice.remote st.providers)
    (hfail : ∀ p ∈ st.providers, ∃ e, env.cloudGen p = .error e) :
    (LLMRouter.generate st env signal).2.1 = .error noBackendError ∧
      (LLMRouter.generate st env signal).2.2 = st.providers.map Evt.cloudAttempt := by
  have := tryProviders_all_fail env st.providers hfail
  simp [LLMRouter.generate, hsel, this]

/-- The C2 scenario state: no model loaded, no local capability, no
configured active model, sole provider `openai`. -/
def c2State : RouterState := ⟨false, false, none, none, false, false, ["openai"], none⟩

/-- The C2 scenario environment: the `openai` call fails with HTTP 500,
so `generateOpenAI` throws `Error('API error: 500')`. -/
def c2Env : Env :=
  ⟨fun _ => .error ⟨"Error", "unused"⟩, fun _ => .error ⟨"Error", "unused"⟩,
    [], .error ⟨"Error", "unused"⟩, [], fun _ => .error ⟨"Error", "API error: 500"⟩⟩

/-- C2 as stated is false: in the scenario (local unavailable, sole
provider `openai` failing with 500) `generate` raises the aggregated
no-backend error — not the provider's transport error — so the aggregated
error IS raised and the `openai` error is never surfaced. -/
theorem generate_sole_provider_counterexample :
    (LLMRouter.generate c2State c2Env (fun _ => false)).2.1 =
        .error noBackendError ∧
      (LLMRouter.generate c2State c2Env (fun _ => false)).2.1 ≠
        .error ⟨"Error", "API error: 500"⟩ := by
  decide

theorem generate_remote_exhausted_witness :
    LLMRouter.selectBackend c2State = Choice.remote c2State.providers ∧
      (LLMRouter.generate c2State c2Env (fun _ => false)).2.1 =
          .error noBackendError ∧
      (LLMRouter.generate c2State c2Env (fun _ => false)).2.2 =
        c2State.providers.map Evt.cloudAttempt :=
  have hfail : ∀ p ∈ c2State.providers, ∃ e, c2Env.cloudGen p = .error e := by
    intro p _
    exact ⟨⟨"Error", "API error: 500"⟩, rfl⟩
  have h := generate_remote_exhausted c2State c2Env (fun _ => false) (by decide) hfail
  ⟨by decide, h.1, h.2⟩

/-! ## Cancellation (C3) -/

theorem webllmLoop_nil (signal : Nat → Bool) (k : Nat) (acc : String) :
    webllmLoop signal k acc [] = (.ok ⟨acc⟩, [.chunk "" true]) := rfl

theorem webllmLoop_cons_some (signal : Nat → Bool) (k : Nat) (acc delta : String)
    (rest : List (Option String)) :
    webllmLoop signal k acc (some delta :: rest) =
      if signal k then (.error abortError, [])
      else if delta ≠ "" then
        ((webllmLoop signal (k + 1) (acc ++ delta) rest).1,
          .chunk delta false :: (webllmLoop signal (k + 1) (acc ++ delta) rest).2)
      else webllmLoop signal (k + 1) acc rest := by
  by_cases h : signal k
  · simp [webllmLoop, h]
  · by_cases hd : delta ≠ "" <;> simp [webllmLoop, h, hd]

theorem webllmLoop_cons_none (signal : Nat → Bool) (k : Nat) (acc : String)
    (rest : List (Option String)) :
    webllmLoop signal k acc (none :: rest) =
      if signal k then (.error abortError, [])
      else webllmLoop signal (k + 1) acc rest := by
  by_cases h : signal k <;> simp [webllmLoop, h]

theorem webllmLoop_abort (signal : Nat → Bool) :
    ∀ (stream : List (Option String)) (k0 : Nat) (acc : String),
      (∃ k, k0 ≤ k ∧ k < k0 + stream.length ∧ signal k = true) →
      (webllmLoop signal k0 acc stream).1 = .error abortError := by
  intro stream
  induction stream with
  | nil =>
    intro k0 acc h
    obtain ⟨k, h1, h2, _⟩ := h
    simp at h2
    omega
  | cons c rest ih =>
    intro k0 acc h
    by_cases h0 : signal k0 = true
    · simp [webllmLoop, h0]
    · obtain ⟨k, h1, h2, h3⟩ := h
      have hk : k0 + 1 ≤ k := by
        rcases Nat.eq_or_lt_of_le h1 with heq | hlt
        · exact absurd (heq ▸ h3) h0
        · exact hlt
      have hnext : ∃ k, k0 + 1 ≤ k ∧ k < (k0 + 1) + rest.length ∧ signal k = true := by
        refine ⟨k, hk, by simp at h2; omega, h3⟩
      cases c with
      | none =>
        rw [webllmLoop_cons_none, if_neg h0]
        exact ih (k0 + 1) acc hnext
      | some delta =>
        rw [webllmLoop_cons_some, if_neg h0]
        by_cases hd : delta ≠ ""
        · rw [if_pos hd]
          exact ih (k0 + 1) (acc ++ delta) hnext
        · rw [if_neg hd]
          exact ih (k0 + 1) acc hnext

theorem webllmLoop_evts_chunks (signal : Nat → Bool) :
    ∀ (stream : List (Option String)) (k0 : Nat) (acc : String) (e : Evt),
      e ∈ (webllmLoop signal k0 acc stream).2 → ∃ c dn, e = Evt.chunk c dn := by
  intro stream
  induction stream with
  | nil =>
    intro k0 acc e he
    simp [webllmLoop] at he
    exact ⟨"", true, he⟩
  | cons c rest ih =>
    intro k0 acc e he
    by_cases h0 : signal k0 = true
    · cases c with
      | none => rw [webllmLoop_cons_none, if_pos h0] at he; simp at he
      | some delta => rw [webllmLoop_cons_some, if_pos h0] at he; simp at he
    · cases c with
      | none =>
        rw [webllmLoop_cons_none, if_neg h0] at he
        exact ih (k0 + 1) acc e he
      | some delta =>
        rw [webllmLoop_cons_some, if_neg h0] at he
        by_cases hd : delta ≠ ""
        · rw [if_pos hd] at he
          rcases List.mem_cons.mp he with h1 | h1
          · exact ⟨delta, false, h1⟩
          · exact ih (k0 + 1) (acc ++ delta) e h1
        · rw [if_neg hd] at he
          exact ih (k0 + 1) acc e he

/-- C3, amended.  On the locally loaded WebLLM path, a cancel signal set
during backend work is a distinguished cancellation: `generateWithWebLLM`
aborts the stream and raises `AbortError`, `generate` propagates it
without attempting any remote provider, and the host — checking
`error.name === 'AbortError'` — emits no terminal (`llm:done` or
`llm:error`) frame for the request id.  On the remote-provider path, by
contrast, an `AbortError` from an aborted fetch is caught by the provider
fallback loop like a generic failure, so further backends are attempted
and a terminal frame can be emitted (see the counterexample); the claim
holds only for the local accelerated path. -/
theorem generate_webllm_cancel_no_terminal (st : RouterState) (env : Env)
    (signal : Nat → Bool) (id : Nat)
    (hsel : LLMRouter.selectBackend st = Choice.useWebllm)
    (hab : ∃ k, k < env.webllmStream.length ∧ signal k = true) :
    (LLMRouter.generate st env signal).2.1 = .error abortError ∧
      (∀ p, Evt.cloudAttempt p ∉ (LLMRouter.generate st env signal).2.2) ∧
      ∀ f ∈ LLMRPCHost.handleLLMRequest id (LLMRouter.generate st env signal).2,
        f.isTerminal = false := by
  have hgen : LLMRouter.generate st env signal =
      (st, LLMRouter.generateWithWebLLM signal env.webllmStream) := by
    simp [LLMRouter.generate, hsel]
  have hab' : ∃ k, 0 ≤ k ∧ k < 0 + env.webllmStream.length ∧ signal k = true := by
    obtain ⟨k, h1, h2⟩ := hab
    exact ⟨k, Nat.zero_le k, by omega, h2⟩
  have hres : (LLMRouter.generateWithWebLLM signal env.webllmStream).1 =
      .error abortError :=
    webllmLoop_abort signal env.webllmStream 0 "" hab'
  refine ⟨by rw [hgen]; exact hres, ?_, ?_⟩
  · intro p hp
    rw [hgen] at hp
    obtain ⟨c, dn, hcd⟩ := webllmLoop_evts_chunks signal env.webllmStream 0 "" _ hp
    simp at hcd
  · intro f hf
    rw [hgen] at hf
    unfold LLMRPCHost.handleLLMRequest at hf
    rcases List.mem_append.mp hf with h1 | h1
    · obtain ⟨e, he, hfe⟩ := List.mem_filterMap.mp h1
      obtain ⟨c, dn, rfl⟩ := webllmLoop_evts_chunks signal env.webllmStream 0 "" e he
      simp only [Option.some_inj] at hfe
      rw [← hfe]
      rfl
    · rw [show ((st, LLMRouter.generateWithWebLLM signal env.webllmStream) :
          RouterState × Except JsError GenResult × List Evt).2.1 =
          (LLMRouter.generateWithWebLLM signal env.webllmStream).1 from rfl] at h1
      rw [hres] at h1
      simp [abortError] at h1

/-- The C3 counterexample state: no local backend, two configured
providers. -/
def c3State : RouterState :=
  ⟨false, false, none, none, false, false, ["openai", "anthropic"], none⟩

/-- The C3 counterexample environment: the cancel signal fired during the
`openai` call, and `generate` passes the same `AbortSignal` to every
provider's `fetch`; an `AbortSignal` stays aborted, so the `openai` fetch
and then the `anthropic` fetch each reject with `AbortError`. -/
def c3Env : Env :=
  ⟨fun _ => .error ⟨"Error", "unused"⟩, fun _ => .error ⟨"Error", "unused"⟩, [],
    .error ⟨"Error", "unused"⟩, [],
    fun _ => .error abortError⟩

/-- C3 as stated is false: when the cancel signal becomes set during a
remote provider call, the aborted fetch's `AbortError` is caught by the
provider loop like a generic failure — the next provider IS attempted
(its fetch rejects with `AbortError` too, since the signal stays
aborted), the loop exhausts and raises the aggregated no-backend error,
whose name is not `'AbortError'`, so the host emits a terminal
`llm:error` frame for the cancelled request id. -/
theorem generate_cancel_cloud_counterexample :
    (LLMRouter.generate c3State c3Env (fun _ => true)).2.1 =
        .error noBackendError ∧
      Evt.cloudAttempt "anthropic" ∈
        (LLMRouter.generate c3State c3Env (fun _ => true)).2.2 ∧
      (⟨"llm:error", 1, none, none, some noBackendError.message⟩ : HostFrame) ∈
        LLMRPCHost.handleLLMRequest 1
          (LLMRouter.generate c3State c3Env (fun _ => true)).2 := by
  decide

/-- The C3 witness state: a WebLLM model is loaded and current. -/
def c3LocalState : RouterState :=
  ⟨true, false, some "Llama-3.2-1B-Instruct-q4f16_1-MLC", some Backend.webllm,
    true, true, ["openai"], none⟩

/-- The C3 witness environment: the engine streams two deltas. -/
def c3LocalEnv : Env :=
  ⟨fun _ => .ok (), fun _ => .ok (), [some "He", some "llo"],
    .error ⟨"Error", "unused"⟩, [], fun _ => .ok ⟨"cloud"⟩⟩

theorem generate_webllm_cancel_no_terminal_witness :
    LLMRouter.selectBackend c3LocalState = Choice.useWebllm ∧
      (LLMRouter.generate c3LocalState c3LocalEnv (fun k => decide (1 ≤ k))).2.1 =
        .error abortError ∧
      (∀ p, Evt.cloudAttempt p ∉
        (LLMRouter.generate c3LocalState c3LocalEnv (fun k => decide (1 ≤ k))).2.2) ∧
      ∀ f ∈ LLMRPCHost.handleLLMRequest 4
          (LLMRouter.generate c3LocalState c3LocalEnv (fun k => decide (1 ≤ k))).2,
        f.isTerminal = false :=
  have h := generate_webllm_cancel_no_terminal c3LocalState c3LocalEnv
    (fun k => decide (1 ≤ k)) 4 (by decide) ⟨1, by decide, by decide⟩
  ⟨by decide, h.1, h.2.1, h.2.2⟩

/-! ## Local model residency (C5) -/

/-- The C5 counterexample start state: both capabilities available,
nothing loaded. -/
def c5State : RouterState := ⟨false, false, none, none, true, true, [], none⟩

/-- The C5 environment: both loads succeed. -/
def c5Env : Env :=
  ⟨fun _ => .ok (), fun _ => .ok (), [], .ok ⟨""⟩, [], fun _ => .ok ⟨""⟩⟩

/-- C5 as stated is false: loading a Wllama model and then a WebLLM model
leaves BOTH `wllamaInstance` and `webllmEngine` resident — loading one
local kind never unloads the other. -/
theorem both_local_models_resident_counterexample :
    ((LLMRouter.loadWebLLMModel
        (LLMRouter.loadWllamaModel c5State c5Env "smollm2-360m-instruct-q8_0").1
        c5Env "Llama-3.2-1B-Instruct-q4f16_1-MLC").1.webllmEngine = true) ∧
      ((LLMRouter.loadWebLLMModel
        (LLMRouter.loadWllamaModel c5State c5Env "smollm2-360m-instruct-q8_0").1
        c5Env "Llama-3.2-1B-Instruct-q4f16_1-MLC").1.wllamaInstance = true) := by
  decide

/-- C5, amended.  Loading a model of one local kind does not unload the
other kind: a successful `loadWebLLMModel` leaves `wllamaInstance` exactly
as it was (and symmetrically for `loadWllamaModel` and `webllmEngine`), so
both engines can be resident at once; `currentModel`/`currentBackend`
record only the most recent load, and mutual exclusion is only restored by
`unloadModel`, which unloads both kinds and clears the current backend. -/
theorem load_keeps_other_kind_resident (st : RouterState) (env : Env)
    (mW mC : String)
    (hgpu : st.webgpuAvailable = true) (hwasm : st.wllamaAvailable = true)
    (hokW : env.webllmLoad mW = .ok ()) (hokC : env.wllamaLoad mC = .ok ())
    (hmC : wllamaModelIds.contains mC = true) :
    ((LLMRouter.loadWebLLMModel st env mW).1.wllamaInstance = st.wllamaInstance ∧
        (LLMRouter.loadWebLLMModel st env mW).1.webllmEngine = true ∧
        (LLMRouter.loadWebLLMModel st env mW).1.currentBackend =
          some Backend.webllm) ∧
      ((LLMRouter.loadWllamaModel st env mC).1.webllmEngine = st.webllmEngine ∧
        (LLMRouter.loadWllamaModel st env mC).1.wllamaInstance = true ∧
        (LLMRouter.loadWllamaModel st env mC).1.currentBackend =
          some Backend.wllama) ∧
      ((LLMRouter.unloadModel st).webllmEngine = false ∧
        (LLMRouter.unloadModel st).wllamaInstance = false ∧
        (LLMRouter.unloadModel st).currentBackend = none) := by
  refine ⟨?_, ?_, ?_⟩
  · simp [LLMRouter.loadWebLLMModel, hgpu, hokW]
  · have hmC' : mC ∈ wllamaModelIds := by simpa using hmC
    simp [LLMRouter.loadWllamaModel, hwasm, hokC, hmC']
  · unfold LLMRouter.unloadModel LLMRouter.unloadWebLLMModel LLMRouter.unloadWllamaModel
    cases hb : st.currentBackend with
    | none => simp [hb]
    | some b => cases b <;> simp [hb]

theorem load_keeps_other_kind_resident_witness :
    c5State.webgpuAvailable = true ∧ c5State.wllamaAvailable = true ∧
      (LLMRouter.loadWebLLMModel c5State c5Env
        "Llama-3.2-1B-Instruct-q4f16_1-MLC").1.wllamaInstance =
          c5State.wllamaInstance ∧
      (LLMRouter.loadWllamaModel c5State c5Env
        "smollm2-360m-instruct-q8_0").1.wllamaInstance = true ∧
      (LLMRouter.unloadModel c5State).webllmEngine = false ∧
      (LLMRouter.unloadModel c5State).wllamaInstance = false :=
  have h := load_keeps_other_kind_resident c5State c5Env
    "Llama-3.2-1B-Instruct-q4f16_1-MLC" "smollm2-360m-instruct-q8_0"
    rfl rfl rfl rfl (by decide)
  ⟨rfl, rfl, h.1.1, h.2.1.2.1, h.2.2.1, h.2.2.2.1⟩

/-! ## Client chunk callback (C4) -/

/-- C4: the code-level behaviour of `LLMRPCClient.generate` with a
caller-supplied chunk callback.  First conjunct: `generate` is entirely
independent of the `onChunk` argument — the callback is accepted and
discarded, so no chunk frame can ever invoke it (the parser has no
callback registry; chunk messages only appear in the `messages` array of
`processInput`).  Remaining conjuncts: the scenario — a fresh client
issues a request (id 1), then the frames `llm:chunk "Hel"`,
`llm:chunk "lo"`, `llm:done` for id 1 arrive — and the only promise
action performed is a single resolve on the terminal `llm:done` frame:
the chunk frames trigger no action at all. -/
theorem client_generate_ignores_onChunk :
    (∀ (P A : Type) (st : ParserState) (params : P) (cb cb' : A),
        LLMRPCClient.generate st params cb = LLMRPCClient.generate st params cb') ∧
      (LLMRPCClient.generate ParserState.init (0 : Nat) (0 : Nat)).2.id = 1 ∧
      (LLMRPCClient.processInput decodeTest
          (LLMRPCClient.generate ParserState.init (0 : Nat) (0 : Nat)).1
          (frameOf "b1" ++ frameOf "b2" ++ frameOf "b3")).1.2 =
        [⟨"llm:chunk", some 1, none, some "Hel"⟩,
          ⟨"llm:chunk", some 1, none, some "lo"⟩,
          ⟨"llm:done", some 1, none, none⟩] ∧
      (LLMRPCClient.processInput decodeTest
          (LLMRPCClient.generate ParserState.init (0 : Nat) (0 : Nat)).1
          (frameOf "b1" ++ frameOf "b2" ++ frameOf "b3")).2.2 =
        [PAction.resolve 1 ⟨"llm:done", some 1, none, none⟩] :=
  ⟨fun _ _ _ _ _ _ => rfl, by decide, by decide, by decide⟩
